import Mathlib

/-!
Verification of the `useCachedVideo` hook (cached video playback over
`expo-file-system`).  JavaScript strings are embedded as `List Char`;
filesystem and network effects are embedded as explicit environments and
state passing; JavaScript `number` sizes are exact naturals (bytes), with
the megabyte comparisons of the source cleared of denominators.
-/

namespace UseCachedVideo

/-- JavaScript strings, embedded as lists of characters. -/
abbrev JStr := List Char

/-- JavaScript `String.prototype.split` with a single-character separator:
`''.split(s) = ['']`, separators delimit (possibly empty) fields. -/
def jsSplit (sep : Char) : JStr → List JStr
  | [] => [[]]
  | c :: cs =>
    let r := jsSplit sep cs
    if c = sep then [] :: r
    else (c :: r.headD []) :: r.tail

/-- The synthetic filename `` `video_${timestamp}.mp4` `` generated for
URLs whose final segment has no extension separator. -/
def synthName (timestamp : Nat) : JStr :=
  ("video_".data) ++ (Nat.repr timestamp).data ++ (".mp4".data)

/-- Embedding of `getCacheFilename` (src/unnamed/part_000:57-68):
split the URL on `/`, take the final segment, and if it contains no `.`
return a synthetic time-derived name; otherwise strip a query string. -/
def getCacheFilename (url : JStr) (timestamp : Nat) : JStr :=
  let urlParts := jsSplit '/' url
  let filename := urlParts.getLastD []
  if filename.contains '.' = false then
    synthName timestamp
  else if filename.contains '?' then (jsSplit '?' filename).headD []
  else filename

/-- The final path-separator-delimited segment of a URL. -/
def lastSegment (url : JStr) : JStr := (jsSplit '/' url).getLastD []

/-- Query-string stripping, formulated independently of `jsSplit`:
the characters before the first `?`. -/
def stripQuery (s : JStr) : JStr := s.takeWhile (fun c => c != '?')

/-- Key resolution as the specification words it: take the final segment,
strip the query suffix, and only then test for an extension separator. -/
def specResolve (url : JStr) (timestamp : Nat) : JStr :=
  let stripped := stripQuery (lastSegment url)
  if stripped.contains '.' = false then synthName timestamp
  else stripped

lemma jsSplit_headD_eq_takeWhile (sep : Char) (s : JStr) :
    (jsSplit sep s).headD [] = s.takeWhile (fun c => c != sep) := by
  induction s with
  | nil => rfl
  | cons c cs ih =>
    rw [List.takeWhile_cons]
    by_cases h : c = sep
    · have hb : (c != sep) = false := by simp [h]
      rw [hb, if_neg (by decide : ¬ (false = true))]
      rw [show jsSplit sep (c :: cs) = [] :: jsSplit sep cs from by simp [jsSplit, h]]
      rfl
    · have hb : (c != sep) = true := by simpa [bne_iff_ne] using h
      rw [hb, if_pos rfl]
      rw [show jsSplit sep (c :: cs)
            = (c :: (jsSplit sep cs).headD []) :: (jsSplit sep cs).tail from by
          simp [jsSplit, h]]
      rw [List.headD_cons]
      exact congrArg (c :: ·) ih

lemma takeWhile_eq_self_of_forall {p : Char → Bool} {s : JStr}
    (h : ∀ c ∈ s, p c = true) : s.takeWhile p = s := by
  induction s with
  | nil => rfl
  | cons c cs ih =>
    simp only [List.takeWhile, h c (List.mem_cons_self c cs)]
    exact congrArg (c :: ·) (ih fun d hd => h d (List.mem_cons_of_mem c hd))

lemma mem_of_mem_takeWhile {p : Char → Bool} {s : JStr} {a : Char}
    (h : a ∈ s.takeWhile p) : a ∈ s := by
  induction s with
  | nil => simp [List.takeWhile] at h
  | cons c cs ih =>
    by_cases hc : p c = true
    · rcases (by simpa [List.takeWhile, hc] using h : a = c ∨ a ∈ cs.takeWhile p) with h' | h'
      · simp [h']
      · exact List.mem_cons_of_mem c (ih h')
    · simp [List.takeWhile, Bool.of_not_eq_true hc] at h

lemma contains_eq_true_iff_mem {α : Type} [BEq α] [LawfulBEq α]
    {s : List α} {a : α} : s.contains a = true ↔ a ∈ s := by
  simp [List.contains, List.elem_iff]

/-- Shared helper: when the final segment contains a `.`, `getCacheFilename`
returns the query-stripped final segment, independent of the timestamp. -/
lemma getCacheFilename_eq_strip_of_dot_mem {url : JStr} (t : Nat)
    (h : '.' ∈ lastSegment url) :
    getCacheFilename url t = stripQuery (lastSegment url) := by
  have hc : List.contains (lastSegment url) '.' = true :=
    contains_eq_true_iff_mem.mpr h
  show (if List.contains (lastSegment url) '.' = false then synthName t
      else if List.contains (lastSegment url) '?' = true then
        (jsSplit '?' (lastSegment url)).headD []
      else lastSegment url) = stripQuery (lastSegment url)
  rw [hc, if_neg (by decide : ¬ (true = false))]
  by_cases hq : List.contains (lastSegment url) '?' = true
  · rw [if_pos hq]
    exact jsSplit_headD_eq_takeWhile '?' (lastSegment url)
  · rw [if_neg hq]
    have hnotmem : '?' ∉ lastSegment url := fun hm =>
      hq (contains_eq_true_iff_mem.mpr hm)
    refine (takeWhile_eq_self_of_forall fun c hc' => ?_).symm
    have hne : c ≠ '?' := fun he => hnotmem (he ▸ hc')
    simpa [bne_iff_ne] using hne

/-- C5 (amended): `getCacheFilename` tests for the extension separator on
the whole final segment, before stripping the query string; the synthetic
name appears exactly when the unstripped final segment has no `.`. -/
theorem getCacheFilename_dot_checked_before_query_strip (url : JStr) (t : Nat) :
    getCacheFilename url t =
      if '.' ∈ lastSegment url then stripQuery (lastSegment url)
      else synthName t := by
  by_cases h : '.' ∈ lastSegment url
  · rw [if_pos h]
    exact getCacheFilename_eq_strip_of_dot_mem t h
  · rw [if_neg h]
    have hc : List.contains (lastSegment url) '.' = false := by
      rcases hb : List.contains (lastSegment url) '.' with _ | _
      · rfl
      · exact absurd (contains_eq_true_iff_mem.mp hb) h
    show (if List.contains (lastSegment url) '.' = false then synthName t
        else if List.contains (lastSegment url) '?' = true then
          (jsSplit '?' (lastSegment url)).headD []
        else lastSegment url) = synthName t
    rw [hc, if_pos rfl]

/-- C5 (counterexample): for a URL whose final segment contains `.` only
inside its query string, the code returns the query-stripped segment
`"video"`; the spec's strip-then-check reading would return a synthetic
name.  The claim "yields a synthetic name" is false on this input. -/
theorem query_dot_resolves_nonsynthetic :
    getCacheFilename ("http://h/video?token=a.b".data) 5 = ("video".data)
      ∧ specResolve ("http://h/video?token=a.b".data) 5 = synthName 5
      ∧ getCacheFilename ("http://h/video?token=a.b".data) 5
          ≠ specResolve ("http://h/video?token=a.b".data) 5 := by
  refine ⟨by decide, by decide, by decide⟩

/-- C6: for every identifier whose final segment carries an explicit file
extension (its query-stripped final segment contains `.`), key resolution
is independent of the time at which it is called. -/
theorem getCacheFilename_deterministic_with_extension (url : JStr) (t1 t2 : Nat)
    (hex : '.' ∈ stripQuery (lastSegment url)) :
    getCacheFilename url t1 = getCacheFilename url t2 := by
  have hdot : '.' ∈ lastSegment url := mem_of_mem_takeWhile hex
  rw [getCacheFilename_eq_strip_of_dot_mem t1 hdot,
    getCacheFilename_eq_strip_of_dot_mem t2 hdot]

/-- C6 witness: concrete instantiation at `"http://cdn/a/video.mp4"`. -/
theorem getCacheFilename_deterministic_with_extension_witness :
    getCacheFilename ("http://cdn/a/video.mp4".data) 1
      = getCacheFilename ("http://cdn/a/video.mp4".data) 99 :=
  getCacheFilename_deterministic_with_extension _ 1 99 (by decide)

/-! ## Eviction: `manageCacheSize` (src/unnamed/part_000:107-147)

The cache directory is modelled as the list of its regular video files,
each with a name, a byte size and a modification timestamp (the source
filters out non-existing entries, directories and metadata-less entries;
the model's directory holds exactly the surviving regular files).
Megabyte comparisons of the source (`totalSize / (1024*1024)` against
`maxCacheSize` and `maxCacheSize * 0.8`) are carried out exactly in
bytes, cleared of denominators: `sizeMB ≤ 0.8 * maxMB` becomes
`5 * sizeBytes ≤ 4 * maxMB * 1048576`. -/

deriving instance DecidableEq for Except

/-- One regular file of the cache directory. -/
structure FileInfo where
  name : JStr
  size : Nat
  mtime : Nat
deriving DecidableEq

/-- Total byte size of a directory listing (`reduce` over sizes). -/
def totalSizeBytes (files : List FileInfo) : Nat :=
  (files.map FileInfo.size).sum

/-- The comparator `(a, b) => timeA - timeB` of the source: ascending
modification time.  JavaScript `Array.prototype.sort` is stable, so the
stable insertion sort is its extensional embedding. -/
def mtimeLe (a b : FileInfo) : Prop := a.mtime ≤ b.mtime

instance : DecidableRel mtimeLe := fun a b => Nat.decLe a.mtime b.mtime

instance : IsTotal FileInfo mtimeLe := ⟨fun a b => Nat.le_total a.mtime b.mtime⟩

instance : IsTrans FileInfo mtimeLe := ⟨fun _ _ _ => Nat.le_trans⟩

/-- Outcome of the deletion loop: files deleted, files still present,
and the error that aborted the pass when a `deleteAsync` threw. -/
structure EvictResult where
  deleted : List FileInfo
  kept : List FileInfo
  err : Option JStr
deriving DecidableEq

/-- The deletion loop of `manageCacheSize` (src/unnamed/part_000:136-142):
walk the mtime-sorted list, stop once `currentSize <= maxCacheSize * 0.8`
(here `5 * current ≤ limit4` with `limit4 = 4 * maxMB * 1048576`), and
await each `deleteAsync`; a throwing delete propagates out of the loop to
the surrounding catch, so it ends the pass with the remaining files kept. -/
def evictLoopD (del : FileInfo → Except JStr Unit) (limit4 : Nat) :
    Nat → List FileInfo → EvictResult
  | _, [] => ⟨[], [], none⟩
  | current, f :: rest =>
    if 5 * current ≤ limit4 then ⟨[], f :: rest, none⟩
    else
      match del f with
      | .error m => ⟨[], f :: rest, some m⟩
      | .ok _ =>
        let r := evictLoopD del limit4 (current - f.size) rest
        ⟨f :: r.deleted, r.kept, r.err⟩

/-- Embedding of `manageCacheSize`: list the directory (a fault anywhere in
the listing is swallowed by the catch, leaving the directory unchanged),
compare the total size against the ceiling, and run the deletion loop on
the mtime-ascending sort.  Returns the directory contents afterwards. -/
def manageCacheSizeD (listFault : Bool) (del : FileInfo → Except JStr Unit)
    (maxMB : Nat) (files : List FileInfo) : List FileInfo :=
  if listFault then files
  else
    let total := totalSizeBytes files
    if maxMB * 1048576 < total then
      (evictLoopD del (4 * (maxMB * 1048576)) total
        (List.insertionSort mtimeLe files)).kept
    else files

/-- `manageCacheSize` in the run where storage cooperates and every
deletion succeeds. -/
def manageCacheSize (maxMB : Nat) (files : List FileInfo) : List FileInfo :=
  manageCacheSizeD false (fun _ => Except.ok ()) maxMB files

lemma evictLoopD_append (del : FileInfo → Except JStr Unit) (limit4 : Nat) :
    ∀ (current : Nat) (l : List FileInfo),
      (evictLoopD del limit4 current l).deleted
        ++ (evictLoopD del limit4 current l).kept = l
  | _, [] => rfl
  | current, f :: rest => by
    unfold evictLoopD
    by_cases h : 5 * current ≤ limit4
    · simp [h]
    · rcases hd : del f with m | u
      · simp [h, hd]
      · simpa [h, hd] using evictLoopD_append del limit4 (current - f.size) rest

lemma evictLoopD_kept_le (limit4 : Nat) :
    ∀ (l : List FileInfo) (current : Nat), current = totalSizeBytes l →
      5 * totalSizeBytes
          ((evictLoopD (fun _ => Except.ok ()) limit4 current l).kept) ≤ limit4
  | [], current, _ => by simp [evictLoopD, totalSizeBytes]
  | f :: rest, current, hcur => by
    unfold evictLoopD
    by_cases h : 5 * current ≤ limit4
    · simp only [if_pos h]
      exact hcur ▸ h
    · have hsub : current - f.size = totalSizeBytes rest := by
        simp [hcur, totalSizeBytes, Nat.add_sub_cancel_left]
      simpa [h] using evictLoopD_kept_le limit4 rest (current - f.size) hsub

lemma evictLoopD_err_cases (del : FileInfo → Except JStr Unit) (limit4 : Nat) :
    ∀ (current : Nat) (l : List FileInfo) (m : JStr),
      (evictLoopD del limit4 current l).err = some m →
      ∃ f tl, (evictLoopD del limit4 current l).kept = f :: tl
        ∧ del f = Except.error m
        ∧ ∀ g ∈ (evictLoopD del limit4 current l).deleted, del g = Except.ok ()
  | current, [], m => by simp [evictLoopD]
  | current, f :: rest, m => by
    unfold evictLoopD
    by_cases h : 5 * current ≤ limit4
    · simp [h]
    · rcases hd : del f with m' | u
      · intro hm
        have hmm : m' = m := by simpa [h, hd] using hm
        exact ⟨f, rest, by simp [h, hd], by rw [hd, hmm], by simp [h, hd]⟩
      · intro hm
        have hm' : (evictLoopD del limit4 (current - f.size) rest).err = some m := by
          simpa [h, hd] using hm
        obtain ⟨g, tl, hk, he, hall⟩ :=
          evictLoopD_err_cases del limit4 (current - f.size) rest m hm'
        refine ⟨g, tl, by simpa [h, hd] using hk, he, ?_⟩
        intro g' hg'
        have : g' = f ∨ g' ∈ (evictLoopD del limit4 (current - f.size) rest).deleted := by
          simpa [h, hd] using hg'
        rcases this with h' | h'
        · cases u; exact h' ▸ hd
        · exact hall g' h'

/-- The deletion pass exactly as `manageCacheSize` invokes it once the
ceiling is exceeded. -/
def evictRun (del : FileInfo → Except JStr Unit) (maxMB : Nat)
    (files : List FileInfo) : EvictResult :=
  evictLoopD del (4 * (maxMB * 1048576)) (totalSizeBytes files)
    (List.insertionSort mtimeLe files)

lemma manageCacheSizeD_eq_kept (del : FileInfo → Except JStr Unit)
    (maxMB : Nat) (files : List FileInfo)
    (hover : maxMB * 1048576 < totalSizeBytes files) :
    manageCacheSizeD false del maxMB files = (evictRun del maxMB files).kept := by
  unfold manageCacheSizeD evictRun
  simp [hover]

/-- C3: once the directory exceeds the ceiling, a fully successful pass of
`manageCacheSize` leaves at most 80% of the ceiling behind, and the files
it keeps are exactly the most-recently-modified ones: the deleted files
and the kept files partition the directory, with every deleted file older
than every kept one (modification times assumed pairwise distinct, as ties
make "most recent" ambiguous). -/
theorem manageCacheSize_low_water_and_lru (maxMB : Nat) (files : List FileInfo)
    (hover : maxMB * 1048576 < totalSizeBytes files)
    (hne : files.Pairwise (fun a b => a.mtime ≠ b.mtime)) :
    5 * totalSizeBytes (manageCacheSize maxMB files) ≤ 4 * (maxMB * 1048576)
      ∧ ∃ dl, List.Perm (dl ++ manageCacheSize maxMB files) files
        ∧ ∀ d ∈ dl, ∀ k ∈ manageCacheSize maxMB files, d.mtime < k.mtime := by
  have hperm : List.Perm (List.insertionSort mtimeLe files) files :=
    List.perm_insertionSort mtimeLe files
  have htot : totalSizeBytes (List.insertionSort mtimeLe files)
      = totalSizeBytes files := (hperm.map FileInfo.size).sum_eq
  have hkept : manageCacheSize maxMB files
      = (evictRun (fun _ => Except.ok ()) maxMB files).kept :=
    manageCacheSizeD_eq_kept _ maxMB files hover
  constructor
  · rw [hkept]
    exact evictLoopD_kept_le (4 * (maxMB * 1048576))
      (List.insertionSort mtimeLe files) (totalSizeBytes files) htot.symm
  · refine ⟨(evictRun (fun _ => Except.ok ()) maxMB files).deleted, ?_, ?_⟩
    · have happ : (evictRun (fun _ => Except.ok ()) maxMB files).deleted
          ++ (evictRun (fun _ => Except.ok ()) maxMB files).kept
          = List.insertionSort mtimeLe files := evictLoopD_append _ _ _ _
      rw [hkept, happ]
      exact hperm
    · have happ : (evictRun (fun _ => Except.ok ()) maxMB files).deleted
          ++ (evictRun (fun _ => Except.ok ()) maxMB files).kept
          = List.insertionSort mtimeLe files := evictLoopD_append _ _ _ _
      have hsorted : (List.insertionSort mtimeLe files).Pairwise mtimeLe :=
        List.sorted_insertionSort mtimeLe files
      have hne' : (List.insertionSort mtimeLe files).Pairwise
          (fun a b => a.mtime ≠ b.mtime) :=
        (hperm.pairwise_iff fun h => Ne.symm h).mpr hne
      have hlt : (List.insertionSort mtimeLe files).Pairwise
          (fun a b => a.mtime < b.mtime) := by
        refine (List.pairwise_and_iff.mpr ⟨hsorted, hne'⟩).imp ?_
        exact fun h => lt_of_le_of_ne h.1 h.2
      rw [← happ] at hlt
      intro d hd k hk
      exact (List.pairwise_append.mp hlt).2.2 d hd k (hkept ▸ hk)

/-- C3 witness: a 4 MiB directory under a 3 MB ceiling evicts its oldest
2 MiB file and keeps the newer one. -/
theorem manageCacheSize_low_water_and_lru_witness :
    5 * totalSizeBytes (manageCacheSize 3
        [⟨['a'], 2097152, 1⟩, ⟨['b'], 2097152, 2⟩]) ≤ 4 * (3 * 1048576)
      ∧ ∃ dl, List.Perm
            (dl ++ manageCacheSize 3 [⟨['a'], 2097152, 1⟩, ⟨['b'], 2097152, 2⟩])
            [⟨['a'], 2097152, 1⟩, ⟨['b'], 2097152, 2⟩]
        ∧ ∀ d ∈ dl, ∀ k ∈ manageCacheSize 3
            [⟨['a'], 2097152, 1⟩, ⟨['b'], 2097152, 2⟩], d.mtime < k.mtime :=
  manageCacheSize_low_water_and_lru 3 _ (by decide)
    (by simp [List.pairwise_cons])

/-- A 50 MiB cache entry. -/
def fiftyMiB : Nat := 52428800

/-- Three 50 MiB files, oldest first. -/
def threeFiles : List FileInfo :=
  [⟨['a'], fiftyMiB, 1⟩, ⟨['b'], fiftyMiB, 2⟩, ⟨['c'], fiftyMiB, 3⟩]

/-- A `deleteAsync` that throws on the oldest file and succeeds elsewhere. -/
def delFailA : FileInfo → Except JStr Unit := fun f =>
  if f.name = ['a'] then Except.error ("locked".data) else Except.ok ()

/-- C2 (counterexample): 150 MiB in a 100 MB-ceiling directory, and the
oldest file cannot be deleted.  The pass deletes nothing at all — the
other two files stay although they are deletable and the directory is
still above the low-water mark, refuting "skipped ... eviction continues
with remaining entries". -/
theorem delete_failure_stops_eviction_pass :
    manageCacheSizeD false delFailA 100 threeFiles = threeFiles
      ∧ delFailA ⟨['b'], fiftyMiB, 2⟩ = Except.ok ()
      ∧ 4 * (100 * 1048576)
          < 5 * totalSizeBytes (manageCacheSizeD false delFailA 100 threeFiles) := by
  refine ⟨by decide, by decide, by decide⟩

/-- C2 (amended): when a `deleteAsync` throws during the pass, the
exception aborts the whole pass: the failing file and every entry sorted
after it remain in the directory, and only the entries deleted before the
failure are gone. -/
theorem delete_failure_aborts_remaining_deletions
    (del : FileInfo → Except JStr Unit) (maxMB : Nat) (files : List FileInfo)
    (m : JStr)
    (hover : maxMB * 1048576 < totalSizeBytes files)
    (herr : (evictRun del maxMB files).err = some m) :
    ∃ f tl,
      manageCacheSizeD false del maxMB files = f :: tl
        ∧ del f = Except.error m
        ∧ (∀ g ∈ (evictRun del maxMB files).deleted, del g = Except.ok ())
        ∧ (evictRun del maxMB files).deleted ++ (f :: tl)
            = List.insertionSort mtimeLe files := by
  obtain ⟨f, tl, hk, he, hall⟩ :=
    evictLoopD_err_cases del (4 * (maxMB * 1048576)) (totalSizeBytes files)
      (List.insertionSort mtimeLe files) m herr
  refine ⟨f, tl, ?_, he, hall, ?_⟩
  · rw [manageCacheSizeD_eq_kept del maxMB files hover]
    exact hk
  · rw [← hk]
    exact evictLoopD_append del _ _ _

/-- C2 witness: the amended statement instantiated on the concrete
three-file directory whose oldest entry is undeletable. -/
theorem delete_failure_aborts_remaining_deletions_witness :
    ∃ f tl,
      manageCacheSizeD false delFailA 100 threeFiles = f :: tl
        ∧ delFailA f = Except.error ("locked".data)
        ∧ (∀ g ∈ (evictRun delFailA 100 threeFiles).deleted,
            delFailA g = Except.ok ())
        ∧ (evictRun delFailA 100 threeFiles).deleted ++ (f :: tl)
            = List.insertionSort mtimeLe threeFiles :=
  delete_failure_aborts_remaining_deletions delFailA 100 threeFiles
    ("locked".data) (by decide) (by decide)

/-- A 30 MiB cache entry. -/
def thirtyMiB : Nat := 31457280

/-- Five 30 MiB files with strictly increasing modification times. -/
def fiveFiles : List FileInfo :=
  [⟨['a'], thirtyMiB, 1⟩, ⟨['b'], thirtyMiB, 2⟩, ⟨['c'], thirtyMiB, 3⟩,
    ⟨['d'], thirtyMiB, 4⟩, ⟨['e'], thirtyMiB, 5⟩]

/-- C4 (counterexample): with a 100 MB ceiling over five 30 MiB files the
pass does not stop after the two oldest deletions — the directory is not
left holding the three newest files, and not 90 MiB. -/
theorem five_files_not_two_deleted :
    manageCacheSize 100 fiveFiles
        ≠ [⟨['c'], thirtyMiB, 3⟩, ⟨['d'], thirtyMiB, 4⟩, ⟨['e'], thirtyMiB, 5⟩]
      ∧ totalSizeBytes (manageCacheSize 100 fiveFiles) ≠ 94371840 := by
  refine ⟨by decide, by decide⟩

/-- C4 (amended): the loop keeps deleting while the directory is above the
80 MB low-water mark; 90 MiB > 80 MB forces a third deletion, so exactly
the three oldest files are deleted and 60 MiB remain. -/
theorem five_files_three_deleted :
    manageCacheSize 100 fiveFiles
        = [⟨['d'], thirtyMiB, 4⟩, ⟨['e'], thirtyMiB, 5⟩]
      ∧ totalSizeBytes (manageCacheSize 100 fiveFiles) = 62914560 := by
  refine ⟨by decide, by decide⟩

/-! ## Progress reporting (src/unnamed/part_000:173-177)

The progress callback computes
`Math.round(totalBytesWritten / totalBytesExpectedToWrite * 100)` and
publishes it unmodified.  JavaScript arithmetic on these byte counts is
exact real arithmetic (the counts are far below 2^53), embedded in `ℚ`;
`Math.round x = ⌊x + 1/2⌋` for every non-`NaN` argument. -/

/-- JavaScript `Math.round`: round half towards positive infinity. -/
def jsRound (q : ℚ) : ℤ := ⌊q + 1 / 2⌋

/-- The value the download-progress callback publishes via
`setCacheProgress` for one `(bytesWritten, bytesExpected)` report. -/
def progressValue (written expected : Nat) : ℤ :=
  jsRound ((written : ℚ) / (expected : ℚ) * 100)

/-- The progress value as the specification words it:
`round(bytesWritten / bytesExpected * 100)` clamped to `[0, 100]`. -/
def specProgress (written expected : Nat) : ℤ :=
  max 0 (min 100 (jsRound ((written : ℚ) / (expected : ℚ) * 100)))

/-- Replaying a stream of progress reports keeps only the latest value. -/
def applyProgress (events : List (Nat × Nat)) (p : ℤ) : ℤ :=
  events.foldl (fun _ e => progressValue e.1 e.2) p

/-- C8 (counterexample): a report of 3 bytes written against 2 expected
publishes 150, outside `[0, 100]` and different from the clamped value
the claim asserts. -/
theorem progress_unclamped_exceeds_hundred :
    progressValue 3 2 = 150
      ∧ specProgress 3 2 = 100
      ∧ ¬ progressValue 3 2 ≤ 100 := by
  have h : progressValue 3 2 = 150 := by
    show ⌊(3 : ℚ) / 2 * 100 + 1 / 2⌋ = 150
    rw [Int.floor_eq_iff]
    norm_num
  refine ⟨h, ?_, by rw [h]; decide⟩
  show max 0 (min 100 (progressValue 3 2)) = 100
  rw [h]
  decide

/-- C8 (amended): the published value is `round(written/expected * 100)`
with no clamping applied; whenever the transport reports
`written ≤ expected` (with `expected > 0`) it coincides with the clamped
value of the claim and lies in `[0, 100]`, but nothing constrains it
otherwise. -/
theorem progress_round_in_range_when_within_expected (written expected : Nat)
    (he : 0 < expected) (hwe : written ≤ expected) :
    0 ≤ progressValue written expected
      ∧ progressValue written expected ≤ 100
      ∧ progressValue written expected = specProgress written expected := by
  have heq : (0 : ℚ) < (expected : ℚ) := by exact_mod_cast he
  have hq0 : (0 : ℚ) ≤ (written : ℚ) / (expected : ℚ) * 100 := by
    apply mul_nonneg (div_nonneg (by positivity) (le_of_lt heq))
    norm_num
  have hq1 : (written : ℚ) / (expected : ℚ) * 100 ≤ 100 := by
    have hd : (written : ℚ) / (expected : ℚ) ≤ 1 :=
      (div_le_one heq).mpr (by exact_mod_cast hwe)
    calc (written : ℚ) / (expected : ℚ) * 100 ≤ 1 * 100 := by
          exact mul_le_mul_of_nonneg_right hd (by norm_num)
      _ = 100 := by norm_num
  have h0 : 0 ≤ progressValue written expected := by
    apply Int.le_floor.mpr
    push_cast
    linarith
  have h100 : progressValue written expected ≤ 100 := by
    have : progressValue written expected < 101 := by
      apply Int.floor_lt.mpr
      push_cast
      linarith
    omega
  refine ⟨h0, h100, ?_⟩
  show progressValue written expected
      = max 0 (min 100 (progressValue written expected))
  rw [min_eq_right h100, max_eq_right h0]

/-- C8 witness: a half-way report (1 of 2 bytes) instantiates the amended
statement. -/
theorem progress_round_in_range_when_within_expected_witness :
    0 ≤ progressValue 1 2
      ∧ progressValue 1 2 ≤ 100
      ∧ progressValue 1 2 = specProgress 1 2 :=
  progress_round_in_range_when_within_expected 1 2 (by decide) (by decide)

/-! ## Fetch orchestration (src/unnamed/part_000:42-302)

The hook's React state is a record; each `setX` call is a functional
update.  Storage and network are an environment of outcomes: each
awaited primitive either returns a value or throws a message.  The cache
directory's contents travel with the state as the list of its files. -/

/-- The merged options of the hook (`DEFAULT_OPTIONS` overridden by the
caller), plus the environment-supplied `FileSystem.documentDirectory`. -/
structure Config where
  enableCaching : Bool
  cacheDirectory : JStr
  maxCacheSize : Nat
  enablePreload : Bool
  docDir : JStr

/-- Outcomes of the awaited storage/network primitives for one run.
`download` is the resumable transfer into the destination path;
`partialBytes` is its disk residue when it throws: the transport
downloads straight into the final cache path, so a failed transfer may
leave that many partial bytes there (`none` = no file left behind). -/
structure Env where
  dirStat : Except JStr Bool
  mkDir : Except JStr Unit
  listFault : Bool
  del : FileInfo → Except JStr Unit
  statFault : Bool
  download : Except JStr Bool
  partialBytes : Option Nat
  progressEvents : List (Nat × Nat)
  newSize : Nat

/-- The hook's observable state together with the cache directory. -/
structure DState where
  videoSource : JStr
  isLoading : Bool
  error : Option JStr
  cacheProgress : ℤ
  isCached : Bool
  cacheFiles : List FileInfo

/-- The cache directory path
`` `${FileSystem.documentDirectory}${cacheDirectory}/` ``. -/
def cacheDirOf (cfg : Config) : JStr :=
  cfg.docDir ++ cfg.cacheDirectory ++ ['/']

/-- `` `${cacheDir}${getCacheFilename(url)}` `` (src/unnamed/part_000:71-76). -/
def getCacheFilePath (cfg : Config) (url : JStr) (t : Nat) : JStr :=
  cacheDirOf cfg ++ getCacheFilename url t

/-- Embedding of `ensureCacheDirectory` (src/unnamed/part_000:94-104):
stat the directory and create it when absent; its catch logs and
rethrows, so every storage fault propagates to the caller. -/
def ensureCacheDirectory (env : Env) : Except JStr Unit :=
  match env.dirStat with
  | .error m => .error m
  | .ok true => .ok ()
  | .ok false => env.mkDir

/-- Embedding of `checkIfCached` (src/unnamed/part_000:79-91): stat the
cache file path and report existence; any storage error is swallowed and
reported as "not cached".  With the directory contents carried as
`files`, the stat answers membership of the derived filename. -/
def checkIfCached (env : Env) (files : List FileInfo) (url : JStr) (t : Nat) :
    Bool :=
  if env.statFault then false
  else (files.map FileInfo.name).contains (getCacheFilename url t)

/-- The body of `downloadVideo`'s `try` block (src/unnamed/part_000:152-188),
threading the state through each awaited step; `Except.error` carries the
thrown message together with the state as mutated so far (React state is
external, so a throw does not roll it back).  The destination of
`createDownloadResumable` is the final cache path itself, so a transfer
that throws mid-way may leave partial bytes there (`env.partialBytes`):
the directory then holds a file under the derived cache filename. -/
def downloadAttempt (env : Env) (cfg : Config) (url : JStr) (t : Nat)
    (s : DState) : Except (JStr × DState) (JStr × DState) :=
  match ensureCacheDirectory env with
  | .error m => .error (m, s)
  | .ok _ =>
    let s1 : DState := { s with
      cacheFiles :=
        manageCacheSizeD env.listFault env.del cfg.maxCacheSize s.cacheFiles }
    if checkIfCached env s1.cacheFiles url t then
      .ok (getCacheFilePath cfg url t, { s1 with isCached := true })
    else
      let s2 : DState := { s1 with
        cacheProgress := applyProgress env.progressEvents s1.cacheProgress }
      match env.download with
      | .error m =>
        let s3 : DState := { s2 with
          cacheFiles :=
            match env.partialBytes with
            | some n => ⟨getCacheFilename url t, n, t⟩ :: s2.cacheFiles
            | none => s2.cacheFiles }
        .error (m, s3)
      | .ok false => .error ("Download failed".data, s2)
      | .ok true =>
        .ok (getCacheFilePath cfg url t,
          { s2 with
            isCached := true
            cacheProgress := 100
            cacheFiles :=
              ⟨getCacheFilename url t, env.newSize, t⟩ :: s2.cacheFiles })

/-- Embedding of `downloadVideo` (src/unnamed/part_000:150-199): set the
initial loading state, run the `try` body, catch any throw into
`setError` + `null`, and clear `isLoading` in the `finally`.  The result
is `Except` so that "the promise rejects" is representable — the catch
makes every outcome `Except.ok`. -/
def downloadVideoE (env : Env) (cfg : Config) (url : JStr) (t : Nat)
    (s : DState) : Except JStr (Option JStr × DState) :=
  let s0 : DState :=
    { s with isLoading := true, error := none, cacheProgress := 0 }
  match downloadAttempt env cfg url t s0 with
  | .ok (p, s') => .ok (some p, { s' with isLoading := false })
  | .error (m, s') =>
    .ok (none, { s' with error := some m, isLoading := false })

/-- Embedding of `preloadVideo` (src/unnamed/part_000:202-208). -/
def preloadVideoE (env : Env) (cfg : Config) (url : JStr) (t : Nat)
    (s : DState) : Except JStr (Option JStr × DState) :=
  if cfg.enableCaching = false then .ok (none, s)
  else downloadVideoE env cfg url t s

/-- Embedding of the `handleVideoSource` effect body
(src/unnamed/part_000:226-291).  Returns the updated state and whether a
background `downloadVideo` was fired; the served `videoSource` is decided
before and independently of any download outcome.  (`!source.uri` treats
the empty string like `null`; `checkIfCached` swallows its own faults, so
the effect's catch branch is unreachable in this model.) -/
def handleVideoSource (env : Env) (cfg : Config) (uri : JStr)
    (useCaching : Option Bool) (t : Nat) (s : DState) : DState × Bool :=
  if uri = [] then ({ s with videoSource := [] }, false)
  else if cfg.enableCaching = false ∨ useCaching = some false then
    ({ s with videoSource := uri }, false)
  else
    let s1 : DState := { s with isLoading := true, error := none }
    if checkIfCached env s1.cacheFiles uri t then
      ({ s1 with
        videoSource := getCacheFilePath cfg uri t
        isCached := true
        isLoading := false }, false)
    else
      ({ s1 with
        videoSource := uri
        isCached := false
        isLoading := false }, cfg.enablePreload)

lemma manageCacheSizeD_subset (listFault : Bool)
    (del : FileInfo → Except JStr Unit) (maxMB : Nat) (files : List FileInfo) :
    ∀ f ∈ manageCacheSizeD listFault del maxMB files, f ∈ files := by
  intro f hf
  unfold manageCacheSizeD at hf
  rcases listFault with _ | _
  · simp only [Bool.false_eq_true, if_false] at hf
    by_cases hover : maxMB * 1048576 < totalSizeBytes files
    · rw [if_pos hover] at hf
      have happ := evictLoopD_append del (4 * (maxMB * 1048576))
        (totalSizeBytes files) (List.insertionSort mtimeLe files)
      have : f ∈ List.insertionSort mtimeLe files := by
        rw [← happ]
        exact List.mem_append_right _ hf
      exact (List.perm_insertionSort mtimeLe files).mem_iff.mp this
    · rwa [if_neg hover] at hf
  · simpa using hf

/-- C7: with a non-null identifier and caching effectively enabled, when
the existence check reports "not cached" the effect serves the remote
identifier itself, synchronously: the served path is fixed for every
download outcome in the environment, the background fetch being at most
fired afterwards. -/
theorem uncached_serves_remote_immediately (env : Env) (cfg : Config)
    (uri : JStr) (useCaching : Option Bool) (t : Nat) (s : DState)
    (hu : uri ≠ [])
    (hc : cfg.enableCaching = true)
    (huc : useCaching ≠ some false)
    (hnc : checkIfCached env s.cacheFiles uri t = false) :
    (handleVideoSource env cfg uri useCaching t s).1.videoSource = uri
      ∧ (handleVideoSource env cfg uri useCaching t s).1.isCached = false
      ∧ (handleVideoSource env cfg uri useCaching t s).2
          = cfg.enablePreload := by
  unfold handleVideoSource
  rw [if_neg hu, if_neg (by simp [hc, huc]), if_neg (by simp [hnc])]
  exact ⟨rfl, rfl, rfl⟩

/-- C7 witness: a concrete uncached identifier is served verbatim. -/
theorem uncached_serves_remote_immediately_witness :
    (handleVideoSource
        ⟨Except.ok true, Except.ok (), false, fun _ => Except.ok (), false,
          Except.ok true, none, [], 7⟩
        ⟨true, "videos".data, 500, true, "file:///doc/".data⟩
        ("http://h/a.mp4".data) (some true) 3
        ⟨[], false, none, 0, false, []⟩).1.videoSource = ("http://h/a.mp4".data)
      ∧ (handleVideoSource
        ⟨Except.ok true, Except.ok (), false, fun _ => Except.ok (), false,
          Except.ok true, none, [], 7⟩
        ⟨true, "videos".data, 500, true, "file:///doc/".data⟩
        ("http://h/a.mp4".data) (some true) 3
        ⟨[], false, none, 0, false, []⟩).1.isCached = false
      ∧ (handleVideoSource
        ⟨Except.ok true, Except.ok (), false, fun _ => Except.ok (), false,
          Except.ok true, none, [], 7⟩
        ⟨true, "videos".data, 500, true, "file:///doc/".data⟩
        ("http://h/a.mp4".data) (some true) 3
        ⟨[], false, none, 0, false, []⟩).2 = true :=
  uncached_serves_remote_immediately _ _ _ _ _ _ (by decide) rfl
    (by decide) (by decide)

/-- Environment for C9: directory present, eviction and stat cooperate,
the transport throws `"boom"` mid-transfer leaving 7 partial bytes at the
destination cache path. -/
def envPartial : Env :=
  ⟨Except.ok true, Except.ok (), false, fun _ => Except.ok (), false,
    Except.error ("boom".data), some 7, [(1, 2)], 0⟩

/-- Configuration for C9's concrete runs. -/
def cfgPartial : Config := ⟨true, "videos".data, 500, false, "file:///doc/".data⟩

/-- State for C9's concrete runs: the effect is serving the remote
identifier and the cache directory is empty. -/
def statePartial : DState := ⟨("http://h/a.mp4".data), false, none, 0, false, []⟩

/-- C9 (counterexample): `createDownloadResumable` writes straight into
the final cache path and `checkIfCached` is an existence-only stat of
that same path, so when the transport throws mid-transfer leaving partial
bytes behind, a cache entry for the key does exist afterwards:
`errorMessage` and `isLoading` behave as claimed, but the existence check
now reports "cached" and the next request for the identifier is served
the partial file as a cache hit — refuting "no valid cached entry exists
for that key (a failed download's partial bytes are not subsequently
treated as a cache hit)". -/
theorem failed_download_partial_bytes_served_as_hit :
    ∃ s', downloadVideoE envPartial cfgPartial ("http://h/a.mp4".data) 3
          statePartial = Except.ok (none, s')
      ∧ s'.error = some ("boom".data)
      ∧ s'.isLoading = false
      ∧ s'.videoSource = ("http://h/a.mp4".data)
      ∧ getCacheFilename ("http://h/a.mp4".data) 3
          ∈ s'.cacheFiles.map FileInfo.name
      ∧ checkIfCached envPartial s'.cacheFiles ("http://h/a.mp4".data) 3 = true
      ∧ (handleVideoSource envPartial cfgPartial ("http://h/a.mp4".data)
          (some true) 3 s').1.videoSource
          = getCacheFilePath cfgPartial ("http://h/a.mp4".data) 3
      ∧ (handleVideoSource envPartial cfgPartial ("http://h/a.mp4".data)
          (some true) 3 s').1.isCached = true := by
  refine ⟨_, rfl, ?_, ?_, ?_, ?_, ?_, ?_, ?_⟩ <;> decide

/-- C9 (amended): if the transport throws mid-transfer with the key not
cached, `downloadVideo` resolves to `null`, `errorMessage` is the thrown
message, `isLoading` is cleared and the served `videoSource` is untouched
(it stays on the remote identifier the effect chose); but whether a cache
entry exists for the key afterwards is decided solely by the transport's
disk residue, which the code does not guard: no entry exists when the
failed transfer left no file behind, while partial bytes left at the
destination are an entry that the existence-only check subsequently
reports as a cache hit. -/
theorem download_failure_error_state_partial_residue (env : Env)
    (cfg : Config) (url : JStr) (t : Nat) (s : DState) (m : JStr)
    (hdir : ensureCacheDirectory env = Except.ok ())
    (hdl : env.download = Except.error m)
    (habs : getCacheFilename url t ∉ s.cacheFiles.map FileInfo.name) :
    ∃ s', downloadVideoE env cfg url t s = Except.ok (none, s')
      ∧ s'.error = some m
      ∧ s'.isLoading = false
      ∧ s'.videoSource = s.videoSource
      ∧ (env.partialBytes = none →
          getCacheFilename url t ∉ s'.cacheFiles.map FileInfo.name)
      ∧ (∀ n, env.partialBytes = some n →
          getCacheFilename url t ∈ s'.cacheFiles.map FileInfo.name
            ∧ (env.statFault = false →
                checkIfCached env s'.cacheFiles url t = true)) := by
  have habs' : getCacheFilename url t
      ∉ (manageCacheSizeD env.listFault env.del cfg.maxCacheSize
          s.cacheFiles).map FileInfo.name := by
    intro hmem
    obtain ⟨f, hf, hfe⟩ := List.mem_map.mp hmem
    exact habs (List.mem_map.mpr
      ⟨f, manageCacheSizeD_subset _ _ _ _ f hf, hfe⟩)
  have hnc : ∀ fs, getCacheFilename url t ∉ fs.map FileInfo.name →
      checkIfCached env fs url t = false := by
    intro fs hfs
    unfold checkIfCached
    rcases env.statFault with _ | _
    · simp only [Bool.false_eq_true, if_false]
      rcases hb : (fs.map FileInfo.name).contains (getCacheFilename url t)
        with _ | _
      · rfl
      · exact absurd (contains_eq_true_iff_mem.mp hb) hfs
    · simp
  unfold downloadVideoE downloadAttempt
  rw [hdir]
  simp only
  rw [if_neg (by simp [hnc _ habs'])]
  rw [hdl]
  refine ⟨_, rfl, rfl, rfl, rfl, ?_, ?_⟩
  · intro hnone
    rw [hnone]
    exact habs'
  · intro n hn
    rw [hn]
    refine ⟨by simp, ?_⟩
    intro hsf
    simp [checkIfCached, hsf, contains_eq_true_iff_mem]

/-- C9 witness: the amended statement at the concrete partial-bytes
environment, all hypotheses discharged. -/
theorem download_failure_error_state_partial_residue_witness :
    ∃ s', downloadVideoE envPartial cfgPartial ("http://h/a.mp4".data) 3
          statePartial = Except.ok (none, s')
      ∧ s'.error = some ("boom".data)
      ∧ s'.isLoading = false
      ∧ s'.videoSource = statePartial.videoSource
      ∧ (envPartial.partialBytes = none →
          getCacheFilename ("http://h/a.mp4".data) 3
            ∉ s'.cacheFiles.map FileInfo.name)
      ∧ (∀ n, envPartial.partialBytes = some n →
          getCacheFilename ("http://h/a.mp4".data) 3
            ∈ s'.cacheFiles.map FileInfo.name
            ∧ (envPartial.statFault = false →
                checkIfCached envPartial s'.cacheFiles
                  ("http://h/a.mp4".data) 3 = true)) :=
  download_failure_error_state_partial_residue _ _ _ 3 _ ("boom".data)
    rfl rfl (by decide)

/-- C10: the promise returned by `preloadVideo` always resolves — for
every environment (directory stat or creation throwing, eviction faults,
existence-check faults, transport faults) the result is `Except.ok`;
it resolves to `null` when caching is disabled, to `null` whenever the
`try` body of `downloadVideo` throws, and to the local path the body
produced on success. -/
theorem preloadVideo_always_resolves (env : Env) (cfg : Config) (url : JStr)
    (t : Nat) (s : DState) :
    ∃ r, preloadVideoE env cfg url t s = Except.ok r
      ∧ (cfg.enableCaching = false → r.1 = none)
      ∧ (∀ m s1, cfg.enableCaching = true →
          downloadAttempt env cfg url t
            { s with isLoading := true, error := none, cacheProgress := 0 }
            = Except.error (m, s1) → r.1 = none)
      ∧ (∀ p s1, cfg.enableCaching = true →
          downloadAttempt env cfg url t
            { s with isLoading := true, error := none, cacheProgress := 0 }
            = Except.ok (p, s1) → r.1 = some p) := by
  unfold preloadVideoE downloadVideoE
  rcases cfg.enableCaching with _ | _
  · simp only [if_pos rfl]
    refine ⟨(none, s), rfl, fun _ => rfl, fun _ _ h _ => ?_, fun _ _ h _ => ?_⟩
    · exact absurd h (by decide)
    · exact absurd h (by decide)
  · simp only [if_neg (by decide : ¬ (true = false))]
    rcases downloadAttempt env cfg url t
        { s with isLoading := true, error := none, cacheProgress := 0 }
      with ⟨m, s1⟩ | ⟨p, s1⟩
    · refine ⟨(none, { s1 with error := some m, isLoading := false }),
        rfl, fun _ => rfl, fun _ _ _ _ => rfl, fun _ _ _ h => ?_⟩
      cases h
    · refine ⟨(some p, { s1 with isLoading := false }),
        rfl, fun h => ?_, fun _ _ _ h => ?_, fun p' s1' _ h => ?_⟩
      · exact absurd h (by decide)
      · cases h
      · exact congrArg (fun x : JStr × DState => some x.1) (Except.ok.inj h)

/-- C10 witness: with the directory stat throwing, the concrete preload
still resolves, to `null`. -/
theorem preloadVideo_always_resolves_witness :
    ∃ r, preloadVideoE
        ⟨Except.error ("disk full".data), Except.ok (), true,
          fun _ => Except.ok (), true, Except.error ("net".data), none, [], 0⟩
        ⟨true, "videos".data, 500, false, "file:///doc/".data⟩
        ("http://h/a.mp4".data) 3
        ⟨[], false, none, 0, false, []⟩
        = Except.ok r
      ∧ ((⟨true, "videos".data, 500, false, "file:///doc/".data⟩ :
            Config).enableCaching = false → r.1 = none)
      ∧ (∀ m s1, (⟨true, "videos".data, 500, false, "file:///doc/".data⟩ :
            Config).enableCaching = true →
          downloadAttempt
            ⟨Except.error ("disk full".data), Except.ok (), true,
              fun _ => Except.ok (), true, Except.error ("net".data), none, [], 0⟩
            ⟨true, "videos".data, 500, false, "file:///doc/".data⟩
            ("http://h/a.mp4".data) 3
            { (⟨[], false, none, 0, false, []⟩ : DState) with
              isLoading := true, error := none, cacheProgress := 0 }
            = Except.error (m, s1) → r.1 = none)
      ∧ (∀ p s1, (⟨true, "videos".data, 500, false, "file:///doc/".data⟩ :
            Config).enableCaching = true →
          downloadAttempt
            ⟨Except.error ("disk full".data), Except.ok (), true,
              fun _ => Except.ok (), true, Except.error ("net".data), none, [], 0⟩
            ⟨true, "videos".data, 500, false, "file:///doc/".data⟩
            ("http://h/a.mp4".data) 3
            { (⟨[], false, none, 0, false, []⟩ : DState) with
              isLoading := true, error := none, cacheProgress := 0 }
            = Except.ok (p, s1) → r.1 = some p) :=
  preloadVideo_always_resolves _ _ _ 3 _

/-! ## Single-flight (C1): two concurrent `downloadVideo` runs, same key

`downloadVideo` has an await boundary between its cache-existence check
and the transport invocation (`downloadAsync`), and no in-flight map: the
two steps of each run can interleave freely with the other run's.  A run
is `start → checked b → done`; moving out of `checked false` is the
transport invocation, which writes the destination file.  A schedule is
the list of which run advances next (`true` = first run). -/

/-- Where one `downloadVideo` run stands relative to its await points. -/
inductive Phase
  | start
  | checked (cached : Bool)
  | done
deriving DecidableEq

/-- Shared state of two concurrent runs for the same key: whether the
cache file exists, how often the transport was invoked, and each run's
phase. -/
structure CState where
  filePresent : Bool
  transportCalls : Nat
  p1 : Phase
  p2 : Phase
deriving DecidableEq

/-- Advance one run by one awaited step: the cache check reads
`filePresent`; an uncached run then invokes the transport, which writes
the file. -/
def stepPhase (fp : Bool) (tc : Nat) : Phase → Phase × Bool × Nat
  | .start => (.checked fp, fp, tc)
  | .checked true => (.done, fp, tc)
  | .checked false => (.done, true, tc + 1)
  | .done => (.done, fp, tc)

/-- Advance the scheduled run (`true` = first run) by one step. -/
def step (s : CState) (first : Bool) : CState :=
  if first then
    let r := stepPhase s.filePresent s.transportCalls s.p1
    { s with p1 := r.1, filePresent := r.2.1, transportCalls := r.2.2 }
  else
    let r := stepPhase s.filePresent s.transportCalls s.p2
    { s with p2 := r.1, filePresent := r.2.1, transportCalls := r.2.2 }

/-- Run a schedule from a state. -/
def runSched (sched : List Bool) (s : CState) : CState := sched.foldl step s

/-- Both runs pending, key absent, no transport activity yet. -/
def init0 : CState := ⟨false, 0, .start, .start⟩

/-- C1 (counterexample): under the interleaving where both runs pass
their cache check before either downloads — both concurrent, neither
having produced a result — the transport is invoked twice for the one
key, refuting "at most once". -/
theorem concurrent_requests_invoke_transport_twice :
    (runSched [true, false, true, false] init0).transportCalls = 2
      ∧ (runSched [true, false, true, false] init0).p1 = Phase.done
      ∧ (runSched [true, false, true, false] init0).p2 = Phase.done := by
  refine ⟨by decide, by decide, by decide⟩

/-- How many of the two runs have finished. -/
def doneCount (s : CState) : Nat :=
  (if s.p1 = Phase.done then 1 else 0) + (if s.p2 = Phase.done then 1 else 0)

lemma step_preserves_le (s : CState) (i : Bool)
    (h : s.transportCalls ≤ doneCount s) :
    (step s i).transportCalls ≤ doneCount (step s i) := by
  obtain ⟨fp, tc, q1, q2⟩ := s
  rcases i with _ | _ <;> rcases q1 with _ | b1 | _ <;>
    rcases q2 with _ | b2 | _ <;>
    (try rcases b1 with _ | _) <;> (try rcases b2 with _ | _) <;>
    (try rcases fp with _ | _) <;>
    simp_all [step, stepPhase, doneCount] <;> omega

lemma runSched_preserves_le (sched : List Bool) :
    ∀ s : CState, s.transportCalls ≤ doneCount s →
      (runSched sched s).transportCalls ≤ doneCount (runSched sched s) := by
  induction sched with
  | nil => exact fun s h => h
  | cons i rest ih =>
    intro s h
    exact ih (step s i) (step_preserves_le s i h)

/-- C1 (amended): without an in-flight map, the only per-key dedup is the
on-disk existence check, so the transport is invoked at most once per
run — hence at most twice for two overlapping runs, and exactly once when
the runs are serialized (the second run's check sees the file the first
run wrote). -/
theorem transport_invoked_once_per_run_only :
    (∀ sched : List Bool, (runSched sched init0).transportCalls ≤ 2)
      ∧ (runSched [true, true, false, false] init0).transportCalls = 1 := by
  constructor
  · intro sched
    have h := runSched_preserves_le sched init0 (by decide)
    have hd : doneCount (runSched sched init0) ≤ 2 := by
      unfold doneCount
      split <;> split <;> omega
    omega
  · decide

end UseCachedVideo
